import Mathlib

/-!
Verification of the logstream collector/normalizer/scrubber/store core.

This file shallowly embeds the Python sources under `src/` (normalizer.py,
scrubber.py, db.py, collector.py) as executable Lean definitions and proves
or refutes the frozen claims about them.  Python strings are modelled as
Lean `String`/`List Char`; `json.loads` output is modelled by the `JVal`
inductive; SQLite queries are modelled over an in-memory `List Row` with the
ORDER BY semantics made explicit; regular expressions are modelled by a
small backtracking engine mirroring the leftmost, greedy, left-alternative
semantics of the `re` module on the pattern fragment the scrubber uses.
-/

set_option maxRecDepth 8000

namespace Logstream

/-! ## Python string helpers -/

/-- The single-quote character, kept out of literals for hygiene. -/
def squote : Char := Char.ofNat 39

/-- The left curly bracket character. -/
def lbrace : Char := Char.ofNat 0x7b

/-- The right curly bracket character. -/
def rbrace : Char := Char.ofNat 0x7d

/-- Python whitespace (`str.isspace` / the `\s` class of `re` on `str`
patterns): ASCII whitespace, the C1 separators, and the Unicode space
characters. -/
def isPySpace (c : Char) : Bool :=
  c = ' ' || c = '\t' || c = '\n' || c = '\r' || c = Char.ofNat 0x0b ||
  c = Char.ofNat 0x0c || c = Char.ofNat 0x1c || c = Char.ofNat 0x1d ||
  c = Char.ofNat 0x1e || c = Char.ofNat 0x1f || c = Char.ofNat 0x85 ||
  c = Char.ofNat 0xa0 || c = Char.ofNat 0x1680 ||
  (0x2000 ≤ c.toNat && c.toNat ≤ 0x200a) || c = Char.ofNat 0x2028 ||
  c = Char.ofNat 0x2029 || c = Char.ofNat 0x202f || c = Char.ofNat 0x205f ||
  c = Char.ofNat 0x3000

/-- Python `str.strip()` on a character list. -/
def pyStripList (l : List Char) : List Char :=
  ((l.dropWhile isPySpace).reverse.dropWhile isPySpace).reverse

/-- Python `str.strip()`.  (`Char.toLower`-style ASCII approximations are
noted where they occur; `strip` itself is exact on the whitespace set
above.) -/
def pyStrip (s : String) : String := ⟨pyStripList s.data⟩

/-- Python `str.lower()` (ASCII case folding; the sources only compare
ASCII level names and pattern letters). -/
def pyLower (s : String) : String := ⟨s.data.map Char.toLower⟩

/-- `needle.isPrefixOf hay` on raw character lists. -/
def listPrefixOf : List Char → List Char → Bool
  | [], _ => true
  | _ :: _, [] => false
  | a :: as, b :: bs => a = b && listPrefixOf as bs

/-- Python `needle in hay` (substring containment). -/
def listContainsSub (needle : List Char) : List Char → Bool
  | [] => needle.isEmpty
  | c :: t => listPrefixOf needle (c :: t) || listContainsSub needle t

/-- Python `needle in hay` on `String`. -/
def containsSub (hay needle : String) : Bool := listContainsSub needle.data hay.data

/-! ## JSON values (the result of Python `json.loads`)

Python `bool` is a subclass of `int`; the places where the sources do
`isinstance(x, int)` therefore also accept booleans, which is modelled
explicitly below.  Non-integer JSON numbers are parsed exactly as a scaled
decimal `jfloat mant exp` with value `mant * 10 ^ exp`; the sources only
ever test the runtime type of such values or convert them through
`datetime`, so the scaled-decimal reading is only an approximation of IEEE
float rounding in the last microsecond digit.  `NaN`/`Infinity`, accepted
by `json.loads`, get their own constructors. -/

inductive JVal : Type where
  | jnull : JVal
  | jbool : Bool → JVal
  | jint : Int → JVal
  | jfloat : Int → Int → JVal
  | jinf : Bool → JVal
  | jnan : JVal
  | jstr : String → JVal
  | jarr : List JVal → JVal
  | jobj : List (String × JVal) → JVal

/-- Python `data.get(k)`: for duplicate keys `json.loads` keeps the last
occurrence, hence the reversed search. -/
def pyGet (d : List (String × JVal)) (k : String) : Option JVal :=
  (d.reverse.find? (fun kv => kv.1 == k)).map (fun kv => kv.2)

/-- Python truthiness of a decoded JSON value. -/
def truthy : JVal → Bool
  | .jnull => false
  | .jbool b => b
  | .jint n => n != 0
  | .jfloat m _ => m != 0
  | .jinf _ => true
  | .jnan => true
  | .jstr s => s ≠ ""
  | .jarr l => !l.isEmpty
  | .jobj l => !l.isEmpty

/-! ### `json.loads` -/

/-- JSON structural whitespace. -/
def jsonWs (c : Char) : Bool := c = ' ' || c = '\t' || c = '\n' || c = '\r'

def skipWs : List Char → List Char
  | [] => []
  | c :: t => if jsonWs c then skipWs t else c :: t

def isHexDigit (c : Char) : Bool :=
  c.isDigit || ('a' ≤ c && c ≤ 'f') || ('A' ≤ c && c ≤ 'F')

def hexVal (c : Char) : Nat :=
  if c.isDigit then c.toNat - '0'.toNat
  else if 'a' ≤ c && c ≤ 'f' then c.toNat - 'a'.toNat + 10
  else c.toNat - 'A'.toNat + 10

/-- Read exactly four hex digits. -/
def read4Hex : List Char → Option (Nat × List Char)
  | a :: b :: c :: d :: t =>
    if isHexDigit a && isHexDigit b && isHexDigit c && isHexDigit d then
      some (((hexVal a * 16 + hexVal b) * 16 + hexVal c) * 16 + hexVal d, t)
    else none
  | _ => none

/-- JSON string body, after the opening quote.  Strict mode: raw control
characters are rejected, escape sequences follow RFC 8259, and `\uXXXX`
surrogate pairs are combined.  (A lone surrogate, which CPython would keep
as an unpaired code unit, has no `Char` representation and fails here; no
claim input contains one.) -/
def parseJStrGo : Nat → List Char → List Char → Option (String × List Char)
  | 0, _, _ => none
  | _ + 1, _acc, [] => none
  | fuel + 1, acc, c :: t =>
    if c = '"' then some (⟨acc.reverse⟩, t)
    else if c = '\\' then
      match t with
      | [] => none
      | e :: t2 =>
        if e = '"' then parseJStrGo fuel ('"' :: acc) t2
        else if e = '\\' then parseJStrGo fuel ('\\' :: acc) t2
        else if e = '/' then parseJStrGo fuel ('/' :: acc) t2
        else if e = 'b' then parseJStrGo fuel (Char.ofNat 8 :: acc) t2
        else if e = 'f' then parseJStrGo fuel (Char.ofNat 12 :: acc) t2
        else if e = 'n' then parseJStrGo fuel ('\n' :: acc) t2
        else if e = 'r' then parseJStrGo fuel ('\r' :: acc) t2
        else if e = 't' then parseJStrGo fuel ('\t' :: acc) t2
        else if e = 'u' then
          match read4Hex t2 with
          | none => none
          | some (n, t3) =>
            if 0xd800 ≤ n && n ≤ 0xdbff then
              match t3 with
              | u1 :: u2 :: t4 =>
                if u1 = '\\' && u2 = 'u' then
                  match read4Hex t4 with
                  | some (lo, t5) =>
                    if 0xdc00 ≤ lo && lo ≤ 0xdfff then
                      parseJStrGo fuel
                        (Char.ofNat (0x10000 + (n - 0xd800) * 0x400 + (lo - 0xdc00)) :: acc) t5
                    else none
                  | none => none
                else none
              | _ => none
            else if 0xdc00 ≤ n && n ≤ 0xdfff then none
            else parseJStrGo fuel (Char.ofNat n :: acc) t3
        else none
    else if c.toNat < 0x20 then none
    else parseJStrGo fuel (c :: acc) t

def digitsToNat (l : List Char) : Nat :=
  l.foldl (fun acc c => acc * 10 + (c.toNat - '0'.toNat)) 0

/-- JSON number at the head of the input (after any sign handling by the
caller).  Returns the value and the rest. -/
def parseNumber (neg : Bool) (s : List Char) : Option (JVal × List Char) :=
  let intDigits := s.takeWhile Char.isDigit
  let rest := s.drop intDigits.length
  if intDigits.isEmpty then none
  else if intDigits.length > 1 && intDigits.headD '0' = '0' then none
  else
    let fracPart : Option (List Char × List Char) :=
      match rest with
      | '.' :: t =>
        let fd := t.takeWhile Char.isDigit
        if fd.isEmpty then none else some (fd, t.drop fd.length)
      | _ => some ([], rest)
    match fracPart with
    | none => none
    | some (fracDigits, rest2) =>
      let expPart : Option (Option Int × List Char) :=
        match rest2 with
        | e :: t =>
          if e = 'e' || e = 'E' then
            match t with
            | '+' :: t2 =>
              let ed := t2.takeWhile Char.isDigit
              if ed.isEmpty then none else some (some (Int.ofNat (digitsToNat ed)), t2.drop ed.length)
            | '-' :: t2 =>
              let ed := t2.takeWhile Char.isDigit
              if ed.isEmpty then none else some (some (-(Int.ofNat (digitsToNat ed))), t2.drop ed.length)
            | _ =>
              let ed := t.takeWhile Char.isDigit
              if ed.isEmpty then none else some (some (Int.ofNat (digitsToNat ed)), t.drop ed.length)
          else some (none, rest2)
        | [] => some (none, rest2)
      match expPart with
      | none => none
      | some (expv, rest3) =>
        let sign : Int := if neg then -1 else 1
        match fracDigits, expv with
        | [], none => some (.jint (sign * Int.ofNat (digitsToNat intDigits)), rest3)
        | _, _ =>
          let mant := sign * Int.ofNat (digitsToNat (intDigits ++ fracDigits))
          let ex : Int := (expv.getD 0) - Int.ofNat fracDigits.length
          some (.jfloat mant ex, rest3)

mutual

/-- One JSON value at the head of the input (whitespace already skipped). -/
def parseVal : Nat → List Char → Option (JVal × List Char)
  | 0, _ => none
  | _ + 1, [] => none
  | fuel + 1, c :: t =>
    if c = '"' then
      match parseJStrGo (fuel + 1) [] t with
      | some (s, r) => some (.jstr s, r)
      | none => none
    else if c = lbrace then parseMembers fuel [] (skipWs t) true
    else if c = '[' then parseItems fuel [] (skipWs t) true
    else if c = 't' then
      if listPrefixOf ['r', 'u', 'e'] t then some (.jbool true, t.drop 3) else none
    else if c = 'f' then
      if listPrefixOf ['a', 'l', 's', 'e'] t then some (.jbool false, t.drop 4) else none
    else if c = 'n' then
      if listPrefixOf ['u', 'l', 'l'] t then some (.jnull, t.drop 3) else none
    else if c = 'N' then
      if listPrefixOf ['a', 'N'] t then some (.jnan, t.drop 2) else none
    else if c = 'I' then
      if listPrefixOf ['n', 'f', 'i', 'n', 'i', 't', 'y'] t then some (.jinf false, t.drop 7)
      else none
    else if c = '-' then
      match t with
      | 'I' :: t2 =>
        if listPrefixOf ['n', 'f', 'i', 'n', 'i', 't', 'y'] t2 then some (.jinf true, t2.drop 7)
        else none
      | _ => parseNumber true t
    else if c.isDigit then parseNumber false (c :: t)
    else none

/-- Object members; `first` marks the position right after `{` or a comma. -/
def parseMembers : Nat → List (String × JVal) → List Char → Bool → Option (JVal × List Char)
  | 0, _, _, _ => none
  | _ + 1, _acc, [], _ => none
  | fuel + 1, acc, c :: t, first =>
    if c = rbrace && first && acc.isEmpty then some (.jobj [], t)
    else if c = '"' then
      match parseJStrGo (fuel + 1) [] t with
      | none => none
      | some (k, r) =>
        match skipWs r with
        | ':' :: r2 =>
          match parseVal fuel (skipWs r2) with
          | none => none
          | some (v, r3) =>
            match skipWs r3 with
            | c2 :: r4 =>
              if c2 = ',' then parseMembers fuel (acc ++ [(k, v)]) (skipWs r4) false
              else if c2 = rbrace then some (.jobj (acc ++ [(k, v)]), r4)
              else none
            | [] => none
        | _ => none
    else none

/-- Array items; `first` marks the position right after `[` or a comma. -/
def parseItems : Nat → List JVal → List Char → Bool → Option (JVal × List Char)
  | 0, _, _, _ => none
  | _ + 1, _acc, [], _ => none
  | fuel + 1, acc, c :: t, first =>
    if c = ']' && first && acc.isEmpty then some (.jarr [], t)
    else
      match parseVal fuel (c :: t) with
      | none => none
      | some (v, r) =>
        match skipWs r with
        | ',' :: r2 => parseItems fuel (acc ++ [v]) (skipWs r2) false
        | ']' :: r2 => some (.jarr (acc ++ [v]), r2)
        | _ => none

end

/-- Python `json.loads`: parse one value surrounded by optional whitespace;
trailing garbage is an error.  The fuel `2 * length + 4` suffices because
between any two fuel decrements at least one input character is consumed
on average (each structural token costs at most two decrements). -/
def json_loads (s : String) : Option JVal :=
  match parseVal (2 * s.data.length + 4) (skipWs s.data) with
  | some (v, r) => if (skipWs r).isEmpty then some v else none
  | none => none

/-! ### `json.dumps` and `str()` (needed by the normalizer fallbacks)

`_extract_message` falls back to `json.dumps(data)` and coerces non-string
field values with `str(...)`.  No claim constrains the text these produce;
they are embedded to keep `normalize_log_line` total and source-shaped.
Float rendering uses the scaled-decimal reading instead of CPython `repr`
shortest-float output, and `str()` of containers is rendered as JSON rather
than Python `repr`; both are commented approximations of non-claim text. -/

def hex4 (n : Nat) : List Char :=
  let dig := fun (k : Nat) =>
    if k < 10 then Char.ofNat ('0'.toNat + k) else Char.ofNat ('a'.toNat + (k - 10))
  [dig (n / 4096 % 16), dig (n / 256 % 16), dig (n / 16 % 16), dig (n % 16)]

/-- JSON string escaping with `ensure_ascii=True` (the `json.dumps`
default): control characters and non-ASCII are `\uXXXX`-escaped, astral
characters as surrogate pairs. -/
def dumpJString (s : String) : String :=
  let esc := fun (c : Char) =>
    if c = '"' then ['\\', '"']
    else if c = '\\' then ['\\', '\\']
    else if c = '\n' then ['\\', 'n']
    else if c = '\t' then ['\\', 't']
    else if c = '\r' then ['\\', 'r']
    else if c.toNat = 8 then ['\\', 'b']
    else if c.toNat = 12 then ['\\', 'f']
    else if c.toNat < 0x20 then '\\' :: 'u' :: hex4 c.toNat
    else if c.toNat < 0x7f then [c]
    else if c.toNat ≤ 0xffff then '\\' :: 'u' :: hex4 c.toNat
    else
      let v := c.toNat - 0x10000
      ('\\' :: 'u' :: hex4 (0xd800 + v / 0x400)) ++ ('\\' :: 'u' :: hex4 (0xdc00 + v % 0x400))
  ⟨'"' :: s.data.flatMap esc ++ ['"']⟩

mutual

/-- Python `json.dumps` with default separators. -/
def jsonDumps : JVal → String
  | .jnull => "null"
  | .jbool b => if b then "true" else "false"
  | .jint n => toString n
  | .jfloat m e => toString m ++ "e" ++ toString e
  | .jinf b => if b then "-Infinity" else "Infinity"
  | .jnan => "NaN"
  | .jstr s => dumpJString s
  | .jarr l => "[" ++ dumpsItems l ++ "]"
  | .jobj fs => ⟨[lbrace]⟩ ++ dumpsFields fs ++ ⟨[rbrace]⟩

def dumpsItems : List JVal → String
  | [] => ""
  | [v] => jsonDumps v
  | v :: vs => jsonDumps v ++ ", " ++ dumpsItems vs

def dumpsFields : List (String × JVal) → String
  | [] => ""
  | [kv] => dumpJString kv.1 ++ ": " ++ jsonDumps kv.2
  | kv :: kvs => dumpJString kv.1 ++ ": " ++ jsonDumps kv.2 ++ ", " ++ dumpsFields kvs

end

/-- Python `str()` of a decoded JSON value.  Scalars are exact
(`True`/`False`/`None`, decimal integers); containers and floats reuse the
JSON rendering as an approximation of `repr` — no claim inspects such
text. -/
def pyStr : JVal → String
  | .jstr s => s
  | .jint n => toString n
  | .jbool b => if b then "True" else "False"
  | .jnull => "None"
  | .jnan => "nan"
  | .jinf b => if b then "-inf" else "inf"
  | v => jsonDumps v

/-! ## The normalizer (`src/normalizer.py`)

`datetime.now(tz=timezone.utc).isoformat()` is impure; it is modelled by an
explicit `now : String` argument threaded to every place the source calls
it (the source may observe microsecond-distinct values across the calls in
one invocation; no claim distinguishes them). -/

/-- `PINO_LEVELS.get(n, "info")` from `src/normalizer.py`. -/
def pinoLookup (n : Int) : String :=
  if n = 10 then "trace"
  else if n = 20 then "debug"
  else if n = 30 then "info"
  else if n = 40 then "warn"
  else if n = 50 then "error"
  else if n = 60 then "fatal"
  else "info"

/-- `isinstance(v, int)` on a decoded JSON value (Python `bool` is an
`int` instance). -/
def jIsPyInt : JVal → Bool
  | .jint _ => true
  | .jbool _ => true
  | _ => false

/-- `isinstance(v, str)` on a decoded JSON value. -/
def jIsStr : JVal → Bool
  | .jstr _ => true
  | _ => false

/-- `_parse_pino_level` from `src/normalizer.py`.  `PINO_LEVELS.get(True)`
and `.get(False)` miss (the keys are 10..60) and yield `"info"`. -/
def parse_pino_level : JVal → String
  | .jint n => pinoLookup n
  | .jbool _ => "info"
  | .jstr s => pyLower s
  | _ => "info"

/-- Days-to-civil-date conversion (proleptic Gregorian), standard integer
algorithm; `z` counts days from 1970-01-01. -/
def civilFromDays (z : Int) : Int × Int × Int :=
  let z := z + 719468
  let era := (if 0 ≤ z then z else z - 146096) / 146097
  let doe := z - era * 146097
  let yoe := (doe - doe / 1460 + doe / 36524 - doe / 146096) / 365
  let y := yoe + era * 400
  let doy := doe - (365 * yoe + yoe / 4 - yoe / 100)
  let mp := (5 * doy + 2) / 153
  let d := doy - (153 * mp + 2) / 5 + 1
  let m := mp + (if mp < 10 then 3 else -9)
  (if m ≤ 2 then y + 1 else y, m, d)

def pad2 (n : Int) : String :=
  let s := toString n.toNat
  if s.length < 2 then "0" ++ s else s

def pad4 (n : Int) : String :=
  let s := toString n.toNat
  if s.length ≥ 4 then s else ⟨List.replicate (4 - s.length) '0'⟩ ++ s

def pad6 (n : Nat) : String :=
  let s := toString n
  if s.length ≥ 6 then s else ⟨List.replicate (6 - s.length) '0'⟩ ++ s

/-- `datetime.fromtimestamp(sec_micro, tz=timezone.utc).isoformat()` for a
UTC epoch instant given in whole microseconds.  `isoformat` omits the
microsecond part when it is zero and renders the UTC offset as
`+00:00`. -/
def isoOfEpochMicro (micro : Int) : String :=
  let sec := micro.fdiv 1000000
  let us := (micro - sec * 1000000).toNat
  let days := sec.fdiv 86400
  let sod := (sec - days * 86400).toNat
  let ymd := civilFromDays days
  let base := pad4 ymd.1 ++ "-" ++ pad2 ymd.2.1 ++ "-" ++ pad2 ymd.2.2 ++ "T" ++
    pad2 (sod / 3600) ++ ":" ++ pad2 (sod % 3600 / 60) ++ ":" ++ pad2 (sod % 60)
  (if us = 0 then base else base ++ "." ++ pad6 us) ++ "+00:00"

/-- The representable `datetime` range (year 1 to year 9999) in epoch
seconds; outside it `fromtimestamp` raises and `_unix_ms_to_iso` returns
`None`. -/
def epochSecInRange (sec : Int) : Bool :=
  -62135596800 ≤ sec && sec ≤ 253402300799

/-- `_unix_ms_to_iso` from `src/normalizer.py`: Unix milliseconds to an
ISO-8601 UTC string, `None` on overflow/NaN (the caught exceptions).  For
float input the microsecond value is computed on the exact scaled decimal
with round-half-even, matching `datetime` rounding up to the IEEE float
approximation noted at `JVal`. -/
def unix_ms_to_iso : JVal → Option String
  | .jint n =>
    if epochSecInRange (n.fdiv 1000) then some (isoOfEpochMicro (n * 1000)) else none
  | .jbool b => some (isoOfEpochMicro (if b then 1000 else 0))
  | .jfloat m e =>
    let microExp : Int := e + 3
    let micro : Int :=
      if 0 ≤ microExp then m * 10 ^ microExp.toNat
      else
        let d : Int := 10 ^ (-microExp).toNat
        let q := m.fdiv d
        let r := m - q * d
        if 2 * r > d then q + 1
        else if 2 * r < d then q
        else if q % 2 = 0 then q else q + 1
    if epochSecInRange (micro.fdiv 1000000) then some (isoOfEpochMicro micro) else none
  | _ => none

def traceKeys : List String := ["trace_id", "traceId", "request_id", "requestId", "x_trace_id"]

/-- `for key in keys: val = data.get(key); if val: return ...` -/
def firstTruthy (d : List (String × JVal)) : List String → Option JVal
  | [] => none
  | k :: ks =>
    match pyGet d k with
    | some v => if truthy v then some v else firstTruthy d ks
    | none => firstTruthy d ks

/-- `_extract_trace_id` from `src/normalizer.py`. -/
def extract_trace_id (d : List (String × JVal)) : Option String :=
  (firstTruthy d traceKeys).map pyStr

/-- `_extract_message` from `src/normalizer.py`. -/
def extract_message (d : List (String × JVal)) : String :=
  match firstTruthy d ["event", "msg", "message"] with
  | some v => pyStr v
  | none => jsonDumps (.jobj d)

/-- The `levelname` branch of `_extract_level`. -/
def levelFromLevelname (d : List (String × JVal)) : String :=
  match pyGet d "levelname" with
  | some (.jstr s) => pyLower s
  | _ => "info"

/-- The `level` branch of `_extract_level`: `isinstance(level, int)` (which
accepts Python booleans) delegates to `_parse_pino_level`, then the string
case, then fall through to `levelname`. -/
def levelFromLevel (d : List (String × JVal)) : String :=
  match pyGet d "level" with
  | some (.jint n) => parse_pino_level (.jint n)
  | some (.jbool b) => parse_pino_level (.jbool b)
  | some (.jstr s) => pyLower s
  | _ => levelFromLevelname d

/-- `_extract_level` from `src/normalizer.py`. -/
def extract_level (d : List (String × JVal)) : String :=
  match pyGet d "log_level" with
  | some (.jstr s) => pyLower s
  | _ => levelFromLevel d

/-- `_extract_timestamp` from `src/normalizer.py`; `now` is the wall-clock
fallback `datetime.now(tz=timezone.utc).isoformat()`. -/
def extract_timestamp (d : List (String × JVal)) (now : String) : String :=
  match pyGet d "timestamp" with
  | some (.jstr s) => s
  | _ =>
    let ts := pyGet d "time"
    let isNum : Bool :=
      match ts with
      | some (.jint _) => true
      | some (.jbool _) => true
      | some (.jfloat _ _) => true
      | some (.jinf _) => true
      | some .jnan => true
      | _ => false
    if isNum then
      match unix_ms_to_iso ((ts).getD .jnull) with
      | some iso => iso
      | none => now
    else now

/-- The canonical record produced by the normalizer, consumed by the
scrubber and broadcaster (`raw` is nullable in the store schema, hence
`Option`). -/
structure Entry where
  service : String
  level : String
  timestamp : String
  trace_id : Option String
  message : String
  raw : Option String
  deriving DecidableEq, Repr

/-- `normalize_log_line` from `src/normalizer.py`. -/
def normalize_log_line (raw_line : String) (service : String) (now : String) : Entry :=
  let stripped := pyStrip raw_line
  if stripped = "" then
    { service, level := "info", timestamp := now, trace_id := none, message := "",
      raw := some stripped }
  else
    match json_loads stripped with
    | some (.jobj d) =>
      { service, level := extract_level d, timestamp := extract_timestamp d now,
        trace_id := extract_trace_id d, message := extract_message d, raw := some stripped }
    | _ =>
      let lower := pyLower stripped
      let level :=
        if containsSub lower "error" || containsSub lower "traceback" ||
            containsSub lower "exception" then "error"
        else if containsSub lower "warn" then "warn"
        else if containsSub lower "debug" then "debug"
        else "info"
      { service, level, timestamp := now, trace_id := none, message := stripped,
        raw := some stripped }

/-! ## The scrubber (`src/scrubber.py`)

The scrub patterns use only a small regex fragment: literals (optionally
case-insensitive), single-character classes, concatenation, left-preferring
alternation, greedy `?`, and greedy counted repetition of a character
class.  The engine below enumerates candidate remainders in exactly the
`re` backtracking preference order (leftmost position, then left
alternative, then longest repetition), so the head of the enumeration is
the match `re` chooses. -/

/-- Regex abstract syntax for the scrubber fragment.  `litCI` stores the
pattern lowercased; `rep cs mn mx` is the greedy `cs{mn,}` (`mx = none`) or
`cs{mn,mx}`. -/
inductive RE : Type where
  | eps : RE
  | cls : (Char → Bool) → RE
  | lit : List Char → RE
  | litCI : List Char → RE
  | cat : RE → RE → RE
  | alt : RE → RE → RE
  | opt : RE → RE
  | rep : (Char → Bool) → Nat → Option Nat → RE

/-- Case-insensitive prefix test (`pat` stored lowercased). -/
def ciPrefixOf : List Char → List Char → Bool
  | [], _ => true
  | _ :: _, [] => false
  | p :: ps, c :: cs => c.toLower = p && ciPrefixOf ps cs

/-- All remainders of matches of `r` at the head of `s`, in `re`
backtracking preference order. -/
def reMatches : RE → List Char → List (List Char)
  | .eps, s => [s]
  | .cls _, [] => []
  | .cls p, c :: t => if p c then [t] else []
  | .lit l, s => if listPrefixOf l s then [s.drop l.length] else []
  | .litCI l, s => if ciPrefixOf l s then [s.drop l.length] else []
  | .cat a b, s => (reMatches a s).flatMap (reMatches b)
  | .alt a b, s => reMatches a s ++ reMatches b s
  | .opt a, s => reMatches a s ++ [s]
  | .rep p mn mx, s =>
    let run := (s.takeWhile p).length
    let hi := match mx with | none => run | some m => min run m
    if hi < mn then []
    else (List.range (hi + 1 - mn)).map (fun i => s.drop (hi - i))

/-- Length of the match `re` chooses at this position, if any. -/
def matchAt (r : RE) (s : List Char) : Option Nat :=
  match reMatches r s with
  | [] => none
  | rem :: _ => some (s.length - rem.length)

/-- `pattern.search`: position and length of the leftmost match. -/
def findFirst (r : RE) : List Char → Option (Nat × Nat)
  | [] => (matchAt r []).map (fun len => (0, len))
  | c :: t =>
    match matchAt r (c :: t) with
    | some len => some (0, len)
    | none => (findFirst r t).map (fun p => (p.1 + 1, p.2))

/-- `pattern.sub(f, s)`: replace every non-overlapping leftmost match,
resuming after each match.  The scrubber patterns never match the empty
string, but the empty-match case follows `re` anyway (emit the replacement,
copy one character, resume).  Fuel `length + 1` bounds the number of
replacements. -/
def subAllGo : Nat → RE → (List Char → List Char) → List Char → List Char
  | 0, _, _, s => s
  | fuel + 1, r, f, s =>
    match findFirst r s with
    | none => s
    | some (i, len) =>
      if len = 0 then
        s.take i ++ f [] ++ (s.drop i).take 1 ++ subAllGo fuel r f (s.drop (i + 1))
      else
        s.take i ++ f ((s.drop i).take len) ++ subAllGo fuel r f (s.drop (i + len))

def subAll (r : RE) (f : List Char → List Char) (s : List Char) : List Char :=
  subAllGo (s.length + 1) r f s

/-! ### The pattern table `SCRUB_PATTERNS` -/

def reStr (s : String) : RE := .lit s.data

def reStrCI (s : String) : RE := .litCI (pyLower s).data

def catList : List RE → RE
  | [] => .eps
  | [r] => r
  | r :: rs => .cat r (catList rs)

/-- `[A-Za-z0-9]` (`Char.isAlpha`/`isDigit` are exactly the ASCII
ranges). -/
def alnum (c : Char) : Bool := c.isAlpha || c.isDigit

/-- `[A-Za-z0-9_]` -/
def wordC (c : Char) : Bool := alnum c || c = '_'

/-- `[A-Za-z0-9_\-\.]` (bearer token body) -/
def tokenC (c : Char) : Bool := alnum c || c = '_' || c = '-' || c = '.'

/-- `[A-Za-z0-9\-]` (slack token body) -/
def slackC (c : Char) : Bool := alnum c || c = '-'

/-- `[A-Za-z0-9_\-]` (assignment values) -/
def assignC (c : Char) : Bool := alnum c || c = '_' || c = '-'

/-- `[^\s\"']` (connection strings and password values) -/
def notSpaceQuote (c : Char) : Bool := !isPySpace c && c ≠ '"' && c ≠ squote

/-- `[0-9A-Z]` -/
def upperDigit (c : Char) : Bool := c.isDigit || ('A' ≤ c && c ≤ 'Z')

/-- `['\"]?` -/
def quoteOpt : RE := .opt (.cls (fun c => c = squote || c = '"'))

/-- `\s*` -/
def wsStar : RE := .rep isPySpace 0 none

/-- `\s+` -/
def wsPlus : RE := .rep isPySpace 1 none

/-- `[:=]` -/
def colonEq : RE := .cls (fun c => c = ':' || c = '=')

structure Pattern where
  pname : String
  re : RE

/-- `sk-[A-Za-z0-9]{20,}` -/
def openai_key : Pattern := ⟨"openai_key", .cat (reStr "sk-") (.rep alnum 20 none)⟩

/-- `sk_(live|test)_[A-Za-z0-9]{20,}` -/
def stripe_key : Pattern :=
  ⟨"stripe_key",
    catList [reStr "sk_", .alt (reStr "live") (reStr "test"), reStr "_", .rep alnum 20 none]⟩

/-- `gh[pousr]_[A-Za-z0-9_]{36,}` -/
def github_token : Pattern :=
  ⟨"github_token",
    catList [reStr "gh",
      .cls (fun c => c = 'p' || c = 'o' || c = 'u' || c = 's' || c = 'r'),
      reStr "_", .rep wordC 36 none]⟩

/-- `xox[baprs]-[A-Za-z0-9\-]{10,}` -/
def slack_token : Pattern :=
  ⟨"slack_token",
    catList [reStr "xox",
      .cls (fun c => c = 'b' || c = 'a' || c = 'p' || c = 'r' || c = 's'),
      reStr "-", .rep slackC 10 none]⟩

/-- `(Bearer\s+)[A-Za-z0-9_\-\.]{20,}` with `re.I`; group 1 is the
`Bearer\s+` prefix. -/
def bearer_token : Pattern :=
  ⟨"bearer_token", .cat (.cat (reStrCI "Bearer") wsPlus) (.rep tokenC 20 none)⟩

/-- `eyJ[A-Za-z0-9_-]+\.eyJ[A-Za-z0-9_-]+\.[A-Za-z0-9_-]+` -/
def jwt : Pattern :=
  ⟨"jwt",
    catList [reStr "eyJ", .rep assignC 1 none, reStr ".", reStr "eyJ", .rep assignC 1 none,
      reStr ".", .rep assignC 1 none]⟩

/-- `(postgres|mysql|mongodb|redis|amqp)://[^\s\"']{10,}` with `re.I`. -/
def connection_string : Pattern :=
  ⟨"connection_string",
    catList [
      .alt (reStrCI "postgres") (.alt (reStrCI "mysql") (.alt (reStrCI "mongodb")
        (.alt (reStrCI "redis") (reStrCI "amqp")))),
      reStr "://", .rep notSpaceQuote 10 none]⟩

/-- `(?:api[_-]?key|apikey)\s*[:=]\s*['\"]?[A-Za-z0-9_\-]{20,}['\"]?` with
`re.I`. -/
def api_key_assignment : Pattern :=
  ⟨"api_key_assignment",
    catList [
      .alt (catList [reStrCI "api", .opt (.cls (fun c => c = '_' || c = '-')), reStrCI "key"])
        (reStrCI "apikey"),
      wsStar, colonEq, wsStar, quoteOpt, .rep assignC 20 none, quoteOpt]⟩

/-- `(?:password|passwd|pwd)\s*[:=]\s*['\"]?[^\s'\"]{8,}['\"]?` with
`re.I`. -/
def password_assignment : Pattern :=
  ⟨"password_assignment",
    catList [
      .alt (reStrCI "password") (.alt (reStrCI "passwd") (reStrCI "pwd")),
      wsStar, colonEq, wsStar, quoteOpt, .rep notSpaceQuote 8 none, quoteOpt]⟩

/-- `(?:secret|token)\s*[:=]\s*['\"]?[A-Za-z0-9_\-]{20,}['\"]?` with
`re.I`. -/
def secret_assignment : Pattern :=
  ⟨"secret_assignment",
    catList [
      .alt (reStrCI "secret") (reStrCI "token"),
      wsStar, colonEq, wsStar, quoteOpt, .rep assignC 20 none, quoteOpt]⟩

/-- `AKIA[0-9A-Z]{16}` -/
def aws_access_key : Pattern := ⟨"aws_access_key", .cat (reStr "AKIA") (.rep upperDigit 16 (some 16))⟩

/-- `-----BEGIN\s+(RSA\s+)?PRIVATE\s+KEY-----` -/
def private_key : Pattern :=
  ⟨"private_key",
    catList [reStr "-----BEGIN", wsPlus, .opt (.cat (reStr "RSA") wsPlus),
      reStr "PRIVATE", wsPlus, reStr "KEY-----"]⟩

/-- `SCRUB_PATTERNS`, in source order. -/
def scrubPatterns : List Pattern :=
  [openai_key, stripe_key, github_token, slack_token, bearer_token, jwt, connection_string,
   api_key_assignment, password_assignment, secret_assignment, aws_access_key, private_key]

/-- The active pattern set: built-ins plus the compiled
`EXTRA_SCRUB_PATTERNS` from configuration, in application order. -/
def activePatterns (extra : List Pattern) : List Pattern := scrubPatterns ++ extra

def redacted : List Char := "[REDACTED]".data

/-- The `\1[REDACTED]` replacement of the `bearer_token` special case:
group 1 is `Bearer\s+`, which inside a match is always the first six
characters plus the maximal whitespace run after them (the token class
excludes whitespace, so backtracking never shortens `\s+`). -/
def bearerRepl (m : List Char) : List Char :=
  m.take 6 ++ (m.drop 6).takeWhile isPySpace ++ redacted

/-- One iteration of the substitution loop in `scrub`: `pattern.sub`
with `[REDACTED]`, or the `bearer_token` special case.  (The source first
runs `pattern.search` to set a logging flag; a sub with no match is the
identity, so the flag does not affect the text.) -/
def applyPattern (s : List Char) (p : Pattern) : List Char :=
  if p.pname = "bearer_token" then subAll p.re bearerRepl s
  else subAll p.re (fun _ => redacted) s

/-- `_should_skip_scrubbing` from `src/scrubber.py`: the raw line parses as
a JSON object whose `logging_strategy` is `"redacted"` or `"partial"`
(a non-string value never equals either tuple element). -/
def should_skip_scrubbing (raw : String) : Bool :=
  match json_loads raw with
  | some (.jobj d) =>
    match pyGet d "logging_strategy" with
    | some (.jstr s) => s = "redacted" || s = "partial"
    | _ => false
  | _ => false

/-- Python truthiness of the optional `raw` argument (`None` and the empty
string are falsy). -/
def rawTruthy : Option String → Bool
  | some r => r ≠ ""
  | none => false

/-- `scrub` from `src/scrubber.py`, parameterised by the compiled extra
patterns (`_extra_compiled`). -/
def scrub (extra : List Pattern) (text : String) (raw : Option String) : String :=
  if rawTruthy raw && should_skip_scrubbing (raw.getD "") then text
  else ⟨(activePatterns extra).foldl applyPattern text.data⟩

/-- `scrub_entry` from `src/scrubber.py`. -/
def scrub_entry (extra : List Pattern) (entry : Entry) : Entry :=
  if rawTruthy entry.raw && should_skip_scrubbing (entry.raw.getD "") then entry
  else
    let e1 := { entry with message := scrub extra entry.message entry.raw }
    if rawTruthy e1.raw then { e1 with raw := some (scrub extra (e1.raw.getD "") e1.raw) }
    else e1

/-- `pattern.search(s)` finds a match somewhere in `s`. -/
def containsMatch (p : Pattern) (s : List Char) : Bool := (findFirst p.re s).isSome

/-- No pattern of `ps` matches anywhere in `s`. -/
def allNoMatch (ps : List Pattern) (s : List Char) : Bool :=
  ps.all (fun p => !containsMatch p s)

/-! ## The store (`src/db.py`)

The `logs` table is modelled as a `List Row` in insertion order; `id` is
the AUTOINCREMENT primary key, so a well-formed store has strictly
increasing ids (stated as a hypothesis where needed).  SQL `ORDER BY` on a
unique key is modelled by an insertion sort with the corresponding
comparator; `ORDER BY timestamp DESC` alone does not determine the order
of equal timestamps, so `search_logs` is modelled as a relation between the
store and the returned list, constraining exactly what the SQL
constrains. -/

structure Row where
  id : Nat
  service : String
  level : String
  timestamp : String
  trace_id : Option String
  message : String
  raw : Option String
  deriving DecidableEq, Repr

/-- The arguments of `search_logs` (all filters optional, `limit`/`offset`
as SQL integers). -/
structure SearchArgs where
  q : Option String
  service : Option String
  level : Option String
  from_ts : Option String
  to_ts : Option String
  trace_id : Option String
  limit : Int
  offset : Int
  deriving Repr

/-- Python truthiness of an optional string parameter: `if q:` skips both
`None` and the empty string, so only non-empty values contribute a WHERE
condition. -/
def optActive : Option String → Option String
  | some "" => none
  | x => x

/-- The conjunction of WHERE conditions `search_logs` builds.  `fts q id`
abstracts the external FTS5 engine (`id IN (SELECT rowid FROM logs_fts
WHERE logs_fts MATCH q)`); SQLite TEXT comparison is bytewise, which for
UTF-8 agrees with the `String` order used here.  `trace_id = ?` on a NULL
column is never true. -/
def rowMatches (fts : String → Nat → Bool) (a : SearchArgs) (r : Row) : Bool :=
  (match optActive a.q with | some q => fts q r.id | none => true) &&
  (match optActive a.service with | some v => r.service = v | none => true) &&
  (match optActive a.level with | some v => r.level = v | none => true) &&
  (match optActive a.from_ts with | some v => v ≤ r.timestamp | none => true) &&
  (match optActive a.to_ts with | some v => r.timestamp ≤ v | none => true) &&
  (match optActive a.trace_id with | some v => r.trace_id = some v | none => true)

/-- SQL `LIMIT`: a negative limit means no limit. -/
def applyLimit (limit : Int) (l : List Row) : List Row :=
  if limit < 0 then l else l.take limit.toNat

/-- Sorted by `timestamp DESC` (non-strictly: equal timestamps in any
order). -/
def tsSortedDesc (l : List Row) : Prop :=
  l.Pairwise (fun a b => b.timestamp ≤ a.timestamp)

/-- The semantics of the query `search_logs` executes: some ordering `l`
of the filtered rows that is sorted by `timestamp DESC` — the only ORDER
BY key in the source — with `OFFSET`/`LIMIT` applied to it.  (A negative
OFFSET is treated as 0 by SQLite, hence `toNat`.) -/
def search_logs_spec (fts : String → Nat → Bool) (db : List Row) (a : SearchArgs)
    (out : List Row) : Prop :=
  ∃ l, l.Perm (db.filter (rowMatches fts a)) ∧ tsSortedDesc l ∧
    out = applyLimit a.limit (l.drop a.offset.toNat)

/-! ### `get_log_context` -/

/-- Insertion into a list sorted by the Boolean comparator `le`. -/
def insertBy (le : Row → Row → Bool) (x : Row) : List Row → List Row
  | [] => [x]
  | y :: t => if le x y then x :: y :: t else y :: insertBy le x t

/-- Insertion sort: the model of SQL `ORDER BY` on a unique key (the sort
key below is the primary key `id`, so the result is the unique sorted
ordering and stability is irrelevant). -/
def sortBy (le : Row → Row → Bool) (l : List Row) : List Row :=
  l.foldr (insertBy le) []

def idAsc (a b : Row) : Bool := a.id ≤ b.id

def idDesc (a b : Row) : Bool := b.id ≤ a.id

/-- `get_log_context` from `src/db.py`: resolve the target service
(`fetchone` on `id = ?`), then `half` same-service rows below by
`id DESC` (reversed back to ascending), the `id = ?` rows, and `half`
same-service rows above by `id ASC`. -/
def get_log_context (db : List Row) (log_id : Nat) (context_lines : Nat) : List Row :=
  let half := context_lines / 2
  match (db.filter (fun r => r.id == log_id)).head? with
  | none => []
  | some tgt =>
    let svc := tgt.service
    let before :=
      (sortBy idDesc (db.filter (fun r => r.service == svc && r.id < log_id))).take half
    let current := db.filter (fun r => r.id == log_id)
    let after :=
      (sortBy idAsc (db.filter (fun r => r.service == svc && log_id < r.id))).take half
    before.reverse ++ current ++ after

/-! ### `get_services` -/

/-- Insertion into a `≤`-sorted list of strings. -/
def insertStr (x : String) : List String → List String
  | [] => [x]
  | y :: t => if x ≤ y then x :: y :: t else y :: insertStr x t

def sortStrs (l : List String) : List String := l.foldr insertStr []

/-- Drop adjacent duplicates (on a sorted list this is SQL `DISTINCT`). -/
def dedupAdj : List String → List String
  | [] => []
  | [x] => [x]
  | x :: y :: t => if x = y then dedupAdj (y :: t) else x :: dedupAdj (y :: t)

/-- `get_services` from `src/db.py`: `SELECT DISTINCT service FROM logs
ORDER BY service` — each stored `service` value once, ascending; there is
no non-empty filter in the query. -/
def get_services (db : List Row) : List String :=
  dedupAdj (sortStrs (db.map (fun r => r.service)))

/-! ## The collector (`src/collector.py`) -/

/-- Python `name.lstrip("/")`: strips every leading slash. -/
def lstripSlash (s : String) : String := ⟨s.data.dropWhile (fun c => c = '/')⟩

/-- The Docker Compose service label key. -/
def composeLabel : String := "com.docker.compose.service"

/-- `container.labels.get("com.docker.compose.service")` (labels form a
dict, keys unique). -/
def labelValue (labels : List (String × String)) : Option String :=
  (labels.find? (fun kv => kv.1 == composeLabel)).map (fun kv => kv.2)

/-- `container.name or container.short_id` (Python `or`: `None` and `""`
fall through). -/
def nameOrShort (name : Option String) (short_id : String) : String :=
  match name with
  | some n => if n ≠ "" then n else short_id
  | none => short_id

/-- `_get_service_name` from `src/collector.py`: the compose label if
truthy, else `(name or short_id).lstrip("/")`. -/
def get_service_name (labels : List (String × String)) (name : Option String)
    (short_id : String) : String :=
  match labelValue labels with
  | some s => if s ≠ "" then s else lstripSlash (nameOrShort name short_id)
  | none => lstripSlash (nameOrShort name short_id)

/-- Index of the first space, Python `line.find(" ")` (as an `Option`
instead of `-1`). -/
def findSpace : List Char → Option Nat
  | [] => none
  | c :: t => if c = ' ' then some 0 else (findSpace t).map (fun i => i + 1)

/-- The Docker timestamp-stripping step of `_tail_container`
(`src/collector.py` lines 73–86), as a pure function of the decoded,
stripped, non-empty line: the runtime timestamp it remembers (if any) and
the payload passed to the normalizer. -/
def tailSplit (line : String) : Option String × String :=
  let l := line.data
  if l.length > 30 && (l.headD ' ').isDigit && (l.take 30).contains 'T' then
    match findSpace l with
    | some i =>
      if 0 < i then (some ⟨l.take i⟩, ⟨l.drop (i + 1)⟩) else (none, line)
    | none => (none, line)
  else (none, line)

/-- One enqueue step of `_notify_subscribers` (`src/collector.py`) on a
single subscriber queue of capacity `cap`: `put_nowait`, and on
`QueueFull` a `get_nowait` (drop the oldest) followed by `put_nowait`.
With `cap = 0` both inner calls fail and the entry is discarded
(`QueueEmpty`/`QueueFull` are swallowed). -/
def publishOne (cap : Nat) (q : List Entry) (e : Entry) : List Entry :=
  if q.length < cap then q ++ [e]
  else
    match q with
    | [] => []
    | _ :: t => t ++ [e]

/-- Publishing a batch to one subscriber queue: each entry enqueued in
order (the whole loop runs under `_sub_lock`, so the steps do not
interleave with other publishers). -/
def publishAll (cap : Nat) (q : List Entry) (es : List Entry) : List Entry :=
  es.foldl (publishOne cap) q

/-! ## Claim-side definitions

Definitions in this section are spec- or claim-side models (for refutation
against the source embedding) and the concrete inputs used by
counterexamples and witnesses. -/

/-- The closed level set of the data model (spec §3). -/
def allowedLevels : List String :=
  ["trace", "debug", "info", "warn", "warning", "error", "fatal"]

/-- The input line, after stripping, parses as a JSON object (the
structured branch of the normalizer). -/
def isJsonObjectLine (line : String) : Bool :=
  match json_loads (pyStrip line) with
  | some (.jobj _) => true
  | _ => false

/-- `log_level` is absent or not a string (so the first branch of
`_extract_level` falls through). -/
def logLevelNotStr (d : List (String × JVal)) : Bool :=
  match pyGet d "log_level" with
  | some v => !jIsStr v
  | none => true

/-- `level` is absent or of neither expected kind (not an `int` — which in
Python includes `bool` — and not a `str`). -/
def levelKindsOther (d : List (String × JVal)) : Bool :=
  match pyGet d "level" with
  | some v => !jIsPyInt v && !jIsStr v
  | none => true

/-- `levelname` is absent or not a string. -/
def levelnameNotStr (d : List (String × JVal)) : Bool :=
  match pyGet d "levelname" with
  | some v => !jIsStr v
  | none => true

/-- Modelled from claim C6: a SINGLE leading slash stripped from the
container name (the source uses `lstrip("/")`, which strips them all). -/
def stripOneSlash (s : String) : String :=
  match s.data with
  | c :: t => if c = '/' then ⟨t⟩ else s
  | [] => s

/-- Modelled from claim C6: label if present and non-empty; else the name
with a single leading slash stripped; else the short id. -/
def claim_service_name (labels : List (String × String)) (name : Option String)
    (short_id : String) : String :=
  match labelValue labels with
  | some s =>
    if s ≠ "" then s
    else match name with
      | some n => if n ≠ "" then stripOneSlash n else short_id
      | none => short_id
  | none =>
    match name with
    | some n => if n ≠ "" then stripOneSlash n else short_id
    | none => short_id

/-- `labelValue` is truthy (present and non-empty). -/
def labelTruthy (labels : List (String × String)) : Bool :=
  match labelValue labels with
  | some s => s ≠ ""
  | none => false

/-- `container.name` is truthy. -/
def nameTruthy : Option String → Bool
  | some n => n ≠ ""
  | none => false

/-- Modelled from claim C7: if the first at-most-30 characters begin with
a digit and contain a `T`, split at the first space — with no requirement
that the line be longer than 30 characters (the source demands
`len(line) > 30`). -/
def claim_tail_split (line : String) : Option String × String :=
  let l := line.data
  if (l.headD ' ').isDigit && (l.take 30).contains 'T' then
    match findSpace l with
    | some i => (some ⟨l.take i⟩, ⟨l.drop (i + 1)⟩)
    | none => (none, line)
  else (none, line)

/-- The trailing `n` elements of a list, in order: what `ORDER BY id DESC
LIMIT n` plus a reverse selects from an ascending list. -/
def takeLast (n : Nat) (l : List Row) : List Row := (l.reverse.take n).reverse

/-- A message on which the scrubber reintroduces a secret-pattern match:
`password_assignment` cannot match it (the value after `pwd=` is cut to
six characters by the double quote), but `secret_assignment` later
rewrites `token="…` to `[REDACTED]`, producing `pwd=[REDACTED]` — which
`password_assignment` matches. -/
def reintroMsg : String := "pwd=token=\"aaaaaaaaaaaaaaaaaaaa"

/-- The C1 counterexample record (its `raw` is not JSON, so no opt-out). -/
def reintroEntry : Entry :=
  { service := "svc", level := "info", timestamp := "2025-02-21T10:00:00+00:00",
    trace_id := none, message := reintroMsg, raw := some reintroMsg }

/-- An upstream-redacted record (opt-out path) for the C1 witness. -/
def optOutEntry : Entry :=
  { service := "einbroch", level := "info", timestamp := "2025-02-21T10:00:00+00:00",
    trace_id := none, message := "sk-abc123def456ghi789jkl012mno345",
    raw := some "\x7b\"logging_strategy\": \"redacted\", \"event\": \"t\"\x7d" }

/-- The C3 counterexample line: a JSON object with a `log_level` outside
the closed set and a non-ISO `timestamp`. -/
def bananaLine : String := "\x7b\"log_level\": \"banana\", \"timestamp\": \"garbage\"\x7d"

/-- A structured line carrying a producer timestamp (C3 witness). -/
def tsLine : String := "\x7b\"timestamp\": \"2025-02-21T10:00:00+00:00\"\x7d"

/-- The parse of `tsLine` (C3 witness). -/
def tsLineFields : List (String × JVal) :=
  [("timestamp", .jstr "2025-02-21T10:00:00+00:00")]

/-- Two rows sharing a timestamp, distinct ids (C2). -/
def tieRow1 : Row :=
  { id := 1, service := "s", level := "info", timestamp := "2025-02-21T10:00:00+00:00",
    trace_id := none, message := "m1", raw := none }

def tieRow2 : Row :=
  { id := 2, service := "s", level := "info", timestamp := "2025-02-21T10:00:00+00:00",
    trace_id := none, message := "m2", raw := none }

/-- An FTS oracle for queries that never use `q`. -/
def noFts : String → Nat → Bool := fun _ _ => false

/-- `search_logs()` with every filter at its default. -/
def noFilterArgs : SearchArgs :=
  { q := none, service := none, level := none, from_ts := none, to_ts := none,
    trace_id := none, limit := 100, offset := 0 }

/-- A stored row whose `service` is the empty string (C8). -/
def emptySvcRow : Row :=
  { id := 1, service := "", level := "info", timestamp := "2025-02-21T10:00:00+00:00",
    trace_id := none, message := "boot", raw := none }

/-- A small three-row store of one service (C4 witness). -/
def ctxRow1 : Row :=
  { id := 1, service := "dispatcher", level := "info",
    timestamp := "2025-02-21T10:00:00+00:00", trace_id := none, message := "l1", raw := none }

def ctxRow2 : Row :=
  { id := 2, service := "dispatcher", level := "info",
    timestamp := "2025-02-21T10:01:00+00:00", trace_id := none, message := "l2", raw := none }

def ctxRow3 : Row :=
  { id := 3, service := "dispatcher", level := "info",
    timestamp := "2025-02-21T10:02:00+00:00", trace_id := none, message := "l3", raw := none }

/-- A concrete entry for the C9 witness. -/
def entry0 : Entry :=
  { service := "s", level := "info", timestamp := "2025-02-21T10:00:00+00:00",
    trace_id := none, message := "m", raw := none }

/-! ## Helper lemmas -/

theorem search_spec_filter_congr (fts : String → Nat → Bool) (db : List Row)
    (a b : SearchArgs) (out : List Row)
    (hf : rowMatches fts a = rowMatches fts b) (hl : a.limit = b.limit)
    (ho : a.offset = b.offset) :
    search_logs_spec fts db a out ↔ search_logs_spec fts db b out := by
  unfold search_logs_spec
  rw [hf, hl, ho]

theorem publishOne_length_le (cap : Nat) (q : List Entry) (e : Entry) (h : q.length ≤ cap) :
    (publishOne cap q e).length ≤ cap := by
  unfold publishOne
  split
  · next hlt => simp; omega
  · next hge =>
    cases q with
    | nil => exact h
    | cons x t => simp at h ⊢; omega

theorem publishAll_length_le (cap : Nat) (es : List Entry) :
    ∀ q : List Entry, q.length ≤ cap → (publishAll cap q es).length ≤ cap := by
  induction es with
  | nil => intro q h; exact h
  | cons e es ih => intro q h; exact ih _ (publishOne_length_le cap q e h)

/-! ## The claims -/

/-- C10: `search_logs` with any filter argument equal to the empty string
behaves exactly as with that argument absent — Python truthiness makes an
empty string add no WHERE condition, so rows can never be selected by an
empty-string field value. -/
theorem search_logs_empty_filter_noop (fts : String → Nat → Bool) (db : List Row)
    (a : SearchArgs) (out : List Row) :
    (search_logs_spec fts db { a with q := some "" } out ↔
      search_logs_spec fts db { a with q := none } out) ∧
    (search_logs_spec fts db { a with service := some "" } out ↔
      search_logs_spec fts db { a with service := none } out) ∧
    (search_logs_spec fts db { a with level := some "" } out ↔
      search_logs_spec fts db { a with level := none } out) ∧
    (search_logs_spec fts db { a with from_ts := some "" } out ↔
      search_logs_spec fts db { a with from_ts := none } out) ∧
    (search_logs_spec fts db { a with to_ts := some "" } out ↔
      search_logs_spec fts db { a with to_ts := none } out) ∧
    (search_logs_spec fts db { a with trace_id := some "" } out ↔
      search_logs_spec fts db { a with trace_id := none } out) := by
  refine ⟨?_, ?_, ?_, ?_, ?_, ?_⟩ <;>
    exact search_spec_filter_congr fts db _ _ out rfl rfl rfl

/-- C9: one subscriber queue under `_notify_subscribers`: the length never
exceeds the capacity over any publish sequence; an enqueue into a non-full
queue appends; an enqueue into a full queue drops exactly the oldest entry
and appends the new one, so the newest entry is always present and at most
one entry is discarded per enqueue (`subscribe()` uses capacity 1000). -/
theorem subscriber_queue_spec (cap : Nat) (q : List Entry) (e : Entry) (es : List Entry)
    (hcap : 0 < cap) (hq : q.length ≤ cap) :
    (publishAll cap q es).length ≤ cap ∧
    (publishOne cap q e).length ≤ cap ∧
    (publishOne cap q e).getLast? = some e ∧
    (q.length < cap → publishOne cap q e = q ++ [e]) ∧
    (q.length = cap → publishOne cap q e = q.tail ++ [e]) := by
  refine ⟨publishAll_length_le cap es q hq, publishOne_length_le cap q e hq, ?_, ?_, ?_⟩
  · unfold publishOne
    split
    · exact List.getLast?_concat _
    · next hge =>
      cases q with
      | nil => simp at hge; omega
      | cons x t => exact List.getLast?_concat _
  · intro hlt; unfold publishOne; rw [if_pos hlt]
  · intro heq; unfold publishOne
    rw [if_neg (by omega)]
    cases q with
    | nil => simp at heq; omega
    | cons x t => rfl

theorem subscriber_queue_spec_witness :
    (publishAll 1000 [] [entry0]).length ≤ 1000 ∧
    (publishOne 1000 [] entry0).getLast? = some entry0 :=
  ⟨(subscriber_queue_spec 1000 [] entry0 [entry0] (by decide) (by decide)).1,
   (subscriber_queue_spec 1000 [] entry0 [entry0] (by decide) (by decide)).2.2.1⟩

/-- C6 counterexample: on a container named `//web` (no compose label) the
source `lstrip("/")` strips BOTH leading slashes and returns `web`, while
the claim — a single leading `/` stripped — would return `/web`. -/
theorem get_service_name_double_slash :
    get_service_name [] (some "//web") "abc123" = "web" ∧
    claim_service_name [] (some "//web") "abc123" = "/web" ∧
    get_service_name [] (some "//web") "abc123" ≠ claim_service_name [] (some "//web") "abc123" :=
  ⟨rfl, rfl, by decide⟩

/-- C6 amended: the resolved name is the compose label when present and
non-empty; otherwise the container name with ALL leading `/` stripped when
the name is truthy; otherwise the short container id with ALL leading `/`
stripped. -/
theorem get_service_name_amended (labels : List (String × String)) (name : Option String)
    (sid : String) :
    (∀ s, labelValue labels = some s → s ≠ "" → get_service_name labels name sid = s) ∧
    (labelTruthy labels = false → ∀ n, name = some n → n ≠ "" →
      get_service_name labels name sid = lstripSlash n) ∧
    (labelTruthy labels = false → nameTruthy name = false →
      get_service_name labels name sid = lstripSlash sid) := by
  refine ⟨?_, ?_, ?_⟩
  · intro s hs hne
    unfold get_service_name
    rw [hs]
    simp [hne]
  · intro hlt n hn hne
    subst hn
    unfold get_service_name
    unfold labelTruthy at hlt
    cases hl : labelValue labels with
    | none => simp [nameOrShort, hne]
    | some s =>
      rw [hl] at hlt
      simp only [ne_eq, decide_not] at hlt
      have hse : s = "" := by
        by_contra hc
        simp [hc] at hlt
      subst hse
      simp [nameOrShort, hne]
  · intro hlt hnt
    unfold get_service_name
    unfold labelTruthy at hlt
    have hns : nameOrShort name sid = sid := by
      unfold nameTruthy at hnt
      cases name with
      | none => rfl
      | some n =>
        have : n = "" := by
          by_contra hc
          simp [hc] at hnt
        subst this
        simp [nameOrShort]
    cases hl : labelValue labels with
    | none => rw [hns]
    | some s =>
      rw [hl] at hlt
      have hse : s = "" := by
        by_contra hc
        simp [hc] at hlt
      subst hse
      simp [hns]

theorem get_service_name_amended_witness :
    get_service_name [(composeLabel, "web")] none "abc123" = "web" :=
  (get_service_name_amended [(composeLabel, "web")] none "abc123").1 "web" rfl (by decide)

/-- C7 counterexample: the line `2025-02-21T10:00:00Z hello` is 26
characters long; it begins with a digit and its first 30 characters
contain a `T`, so the claim says the tailer splits off the timestamp — but
the source additionally requires `len(line) > 30` and passes the whole
line through as payload. -/
theorem tail_split_short_line :
    tailSplit "2025-02-21T10:00:00Z hello" = (none, "2025-02-21T10:00:00Z hello") ∧
    claim_tail_split "2025-02-21T10:00:00Z hello" = (some "2025-02-21T10:00:00Z", "hello") ∧
    tailSplit "2025-02-21T10:00:00Z hello" ≠ claim_tail_split "2025-02-21T10:00:00Z hello" :=
  ⟨rfl, rfl, by decide⟩

/-- C7 amended: only when the line is LONGER than 30 characters, begins
with a digit and has a `T` among its first 30 characters does the tailer
treat the prefix before the first space (if a space exists at a positive
index) as the runtime timestamp and pass the remainder to the normalizer;
in every other case the whole line is the payload and no timestamp is
remembered. -/
theorem tail_split_amended (line : String) :
    ((line.data.length ≤ 30 ∨ (line.data.headD ' ').isDigit = false ∨
        (line.data.take 30).contains 'T' = false) → tailSplit line = (none, line)) ∧
    (∀ i, 30 < line.data.length → (line.data.headD ' ').isDigit = true →
      (line.data.take 30).contains 'T' = true → findSpace line.data = some i → 0 < i →
      tailSplit line = (some ⟨line.data.take i⟩, ⟨line.data.drop (i + 1)⟩)) ∧
    (30 < line.data.length → (line.data.headD ' ').isDigit = true →
      (line.data.take 30).contains 'T' = true → findSpace line.data = none →
      tailSplit line = (none, line)) := by
  refine ⟨?_, ?_, ?_⟩
  · intro h
    unfold tailSplit
    rw [if_neg]
    intro hc
    simp only [Bool.and_eq_true, decide_eq_true_eq] at hc
    rcases h with h | h | h
    · omega
    · rw [h] at hc; simp at hc
    · rw [h] at hc; simp at hc
  · intro i h1 h2 h3 h4 h5
    unfold tailSplit
    rw [if_pos (by simp only [Bool.and_eq_true, decide_eq_true_eq]; exact ⟨⟨h1, h2⟩, h3⟩)]
    rw [h4]
    simp [h5]
  · intro h1 h2 h3 h4
    unfold tailSplit
    rw [if_pos (by simp only [Bool.and_eq_true, decide_eq_true_eq]; exact ⟨⟨h1, h2⟩, h3⟩)]
    rw [h4]

theorem tail_split_amended_witness :
    tailSplit "2025-02-21T10:00:00.123456789Z hello world" =
      (some "2025-02-21T10:00:00.123456789Z", "hello world") :=
  ((tail_split_amended "2025-02-21T10:00:00.123456789Z hello world").2.1 30
    (by decide) (by decide) (by decide) (by decide) (by decide)).trans (by decide)

/-- C2 (code bug): `search_logs` builds `ORDER BY timestamp DESC` with no
`id DESC` tiebreak, so for two stored rows sharing a timestamp the query
contract admits both orders — including the one with the SMALLER id first,
which the claim forbids.  The promised deterministic `(timestamp DESC,
id DESC)` ordering is not enforced by the source. -/
theorem search_logs_tie_order_undetermined :
    tieRow1.timestamp = tieRow2.timestamp ∧ tieRow1.id < tieRow2.id ∧
    search_logs_spec noFts [tieRow1, tieRow2] noFilterArgs [tieRow1, tieRow2] ∧
    search_logs_spec noFts [tieRow1, tieRow2] noFilterArgs [tieRow2, tieRow1] := by
  refine ⟨rfl, by decide, ⟨[tieRow1, tieRow2], by decide, ?_, by decide⟩,
    ⟨[tieRow2, tieRow1], by decide, ?_, by decide⟩⟩ <;>
    · unfold tsSortedDesc
      refine List.Pairwise.cons (fun z hz => ?_) (List.pairwise_singleton _ _)
      rcases List.mem_singleton.mp hz with rfl
      exact le_refl _

/-- C3 counterexample: on the JSON line with `log_level` `"banana"` and
`timestamp` `"garbage"` the normalizer output level is `banana` — outside
the closed level set — and the output timestamp is the verbatim string
`garbage`, which is not an ISO-8601 date. -/
theorem normalize_level_escapes_allowed_set :
    (normalize_log_line bananaLine "svc" "2025-01-01T00:00:00+00:00").level = "banana" ∧
    "banana" ∉ allowedLevels ∧
    (normalize_log_line bananaLine "svc" "2025-01-01T00:00:00+00:00").timestamp = "garbage" :=
  ⟨rfl, by decide, rfl⟩

/-- C3 amended: the output `service` always equals the argument; on the
non-structured path (input does not parse as a JSON object) the level is
in the closed set; on the structured path a string `timestamp` field is
copied verbatim (so the output timestamp is ISO-8601 only when the
producer value is), and the level is whatever lowercased string the
producer supplied. -/
theorem normalize_amended (line svc now : String) :
    (normalize_log_line line svc now).service = svc ∧
    (isJsonObjectLine line = false → (normalize_log_line line svc now).level ∈ allowedLevels) ∧
    (∀ d t, json_loads (pyStrip line) = some (.jobj d) →
      pyGet d "timestamp" = some (.jstr t) →
      (normalize_log_line line svc now).timestamp = t) := by
  refine ⟨?_, ?_, ?_⟩
  · simp only [normalize_log_line]
    split
    · rfl
    · split <;> rfl
  · intro hobj
    unfold isJsonObjectLine at hobj
    simp only [normalize_log_line]
    split
    · simp [allowedLevels]
    · next hne =>
      cases hj : json_loads (pyStrip line) with
      | none =>
        dsimp only
        split_ifs <;> simp [allowedLevels]
      | some v =>
        rw [hj] at hobj
        cases v with
        | jobj d => simp at hobj
        | jnull => dsimp only; split_ifs <;> simp [allowedLevels]
        | jbool b => dsimp only; split_ifs <;> simp [allowedLevels]
        | jint n => dsimp only; split_ifs <;> simp [allowedLevels]
        | jfloat m e => dsimp only; split_ifs <;> simp [allowedLevels]
        | jinf b => dsimp only; split_ifs <;> simp [allowedLevels]
        | jnan => dsimp only; split_ifs <;> simp [allowedLevels]
        | jstr s => dsimp only; split_ifs <;> simp [allowedLevels]
        | jarr l => dsimp only; split_ifs <;> simp [allowedLevels]
  · intro d t hj ht
    have hne : ¬pyStrip line = "" := by
      intro he
      rw [he, show json_loads "" = none from rfl] at hj
      exact Option.noConfusion hj
    simp only [normalize_log_line]
    rw [if_neg hne, hj]
    simp [extract_timestamp, ht]

theorem normalize_amended_witness :
    (normalize_log_line "hello" "s" "T0").level ∈ allowedLevels ∧
    (normalize_log_line tsLine "s" "T0").timestamp = "2025-02-21T10:00:00+00:00" :=
  ⟨(normalize_amended "hello" "s" "T0").2.1 rfl,
   (normalize_amended tsLine "s" "T0").2.2 tsLineFields "2025-02-21T10:00:00+00:00" rfl rfl⟩

theorem extract_level_of_logLevelNotStr (d : List (String × JVal))
    (h : logLevelNotStr d = true) : extract_level d = levelFromLevel d := by
  unfold extract_level
  unfold logLevelNotStr at h
  cases hv : pyGet d "log_level" with
  | none => rfl
  | some v =>
    rw [hv] at h
    cases v <;> simp_all [jIsStr]

theorem levelFromLevel_of_other (d : List (String × JVal))
    (h : levelKindsOther d = true) : levelFromLevel d = levelFromLevelname d := by
  unfold levelFromLevel
  unfold levelKindsOther at h
  cases hv : pyGet d "level" with
  | none => rfl
  | some v =>
    rw [hv] at h
    cases v <;> simp_all [jIsStr, jIsPyInt]

/-- C5: the level precedence of the normalizer on a JSON object: a string
`log_level` (lowercased); else an integer `level` through the Pino map
`10→trace … 60→fatal` with unknown integers mapping to `info`; else a
string `level` (lowercased); else a string `levelname` (lowercased); else
`info`.  (Following `isinstance(level, int)` in the source, Python
booleans take the integer branch and land on `info`.) -/
theorem extract_level_precedence (d : List (String × JVal)) :
    (∀ s, pyGet d "log_level" = some (.jstr s) → extract_level d = pyLower s) ∧
    (∀ n : Int, logLevelNotStr d = true → pyGet d "level" = some (.jint n) →
      extract_level d = pinoLookup n) ∧
    (pinoLookup 10 = "trace" ∧ pinoLookup 20 = "debug" ∧ pinoLookup 30 = "info" ∧
      pinoLookup 40 = "warn" ∧ pinoLookup 50 = "error" ∧ pinoLookup 60 = "fatal") ∧
    (∀ n : Int, n ∉ ([10, 20, 30, 40, 50, 60] : List Int) → pinoLookup n = "info") ∧
    (∀ s, logLevelNotStr d = true → pyGet d "level" = some (.jstr s) →
      extract_level d = pyLower s) ∧
    (∀ s, logLevelNotStr d = true → levelKindsOther d = true →
      pyGet d "levelname" = some (.jstr s) → extract_level d = pyLower s) ∧
    (logLevelNotStr d = true → levelKindsOther d = true → levelnameNotStr d = true →
      extract_level d = "info") := by
  refine ⟨?_, ?_, by decide, ?_, ?_, ?_, ?_⟩
  · intro s h
    unfold extract_level
    rw [h]
  · intro n hll h
    rw [extract_level_of_logLevelNotStr d hll]
    unfold levelFromLevel
    rw [h]
    rfl
  · intro n hn
    simp only [List.mem_cons, List.not_mem_nil, or_false] at hn
    push_neg at hn
    obtain ⟨h1, h2, h3, h4, h5, h6⟩ := hn
    unfold pinoLookup
    rw [if_neg h1, if_neg h2, if_neg h3, if_neg h4, if_neg h5, if_neg h6]
  · intro s hll h
    rw [extract_level_of_logLevelNotStr d hll]
    unfold levelFromLevel
    rw [h]
  · intro s hll hlk h
    rw [extract_level_of_logLevelNotStr d hll, levelFromLevel_of_other d hlk]
    unfold levelFromLevelname
    rw [h]
  · intro hll hlk hln
    rw [extract_level_of_logLevelNotStr d hll, levelFromLevel_of_other d hlk]
    unfold levelFromLevelname
    unfold levelnameNotStr at hln
    cases hv : pyGet d "levelname" with
    | none => rfl
    | some v =>
      rw [hv] at hln
      cases v <;> simp_all [jIsStr]

theorem extract_level_precedence_witness :
    extract_level [("level", JVal.jint 30)] = pinoLookup 30 ∧ pinoLookup 77 = "info" :=
  ⟨(extract_level_precedence [("level", JVal.jint 30)]).2.1 30 rfl rfl,
   (extract_level_precedence []).2.2.2.1 77 (by decide)⟩

theorem mem_insertStr (a x : String) (l : List String) :
    a ∈ insertStr x l ↔ a = x ∨ a ∈ l := by
  induction l with
  | nil => simp [insertStr]
  | cons y t ih =>
    unfold insertStr
    split
    · simp [List.mem_cons]
    · simp only [List.mem_cons, ih]
      tauto

theorem mem_sortStrs (a : String) (l : List String) : a ∈ sortStrs l ↔ a ∈ l := by
  induction l with
  | nil => simp [sortStrs]
  | cons x t ih =>
    show a ∈ insertStr x (sortStrs t) ↔ _
    rw [mem_insertStr]
    simp [ih]

theorem sorted_insertStr (x : String) (l : List String) (h : l.Pairwise (· ≤ ·)) :
    (insertStr x l).Pairwise (· ≤ ·) := by
  induction l with
  | nil => simp [insertStr]
  | cons y t ih =>
    unfold insertStr
    split
    · next hxy =>
      refine List.Pairwise.cons ?_ h
      intro z hz
      rcases List.mem_cons.mp hz with rfl | hz
      · exact hxy
      · exact le_trans hxy (List.rel_of_pairwise_cons h hz)
    · next hxy =>
      have hyx : y ≤ x := le_of_not_le hxy
      refine List.Pairwise.cons ?_ (ih h.of_cons)
      intro z hz
      rcases (mem_insertStr z x t).mp hz with rfl | hz
      · exact hyx
      · exact List.rel_of_pairwise_cons h hz

theorem sorted_sortStrs (l : List String) : (sortStrs l).Pairwise (· ≤ ·) := by
  induction l with
  | nil => simp [sortStrs]
  | cons x t ih => exact sorted_insertStr x _ ih

theorem mem_dedupAdj (a : String) (l : List String) : a ∈ dedupAdj l ↔ a ∈ l := by
  induction l with
  | nil => simp [dedupAdj]
  | cons x t ih =>
    cases t with
    | nil => simp [dedupAdj]
    | cons y t2 =>
      show a ∈ (if x = y then dedupAdj (y :: t2) else x :: dedupAdj (y :: t2)) ↔ _
      split
      · next hxy =>
        rw [ih]
        subst hxy
        simp [List.mem_cons]
      · next hxy =>
        simp only [List.mem_cons, ih]

theorem sortedLT_dedupAdj (l : List String) (h : l.Pairwise (· ≤ ·)) :
    (dedupAdj l).Pairwise (· < ·) := by
  induction l with
  | nil => simp [dedupAdj]
  | cons x t ih =>
    cases t with
    | nil => simp [dedupAdj]
    | cons y t2 =>
      have hle : x ≤ y := List.rel_of_pairwise_cons h (by simp)
      have ht : (y :: t2).Pairwise (· ≤ ·) := h.of_cons
      show (if x = y then dedupAdj (y :: t2) else x :: dedupAdj (y :: t2)).Pairwise (· < ·)
      split
      · exact ih ht
      · next hxy =>
        refine List.Pairwise.cons ?_ (ih ht)
        intro z hz
        have hzmem : z ∈ y :: t2 := (mem_dedupAdj z (y :: t2)).mp hz
        have hxz : x ≤ z := by
          rcases List.mem_cons.mp hzmem with rfl | hz2
          · exact hle
          · exact le_trans hle (List.rel_of_pairwise_cons ht hz2)
        rcases lt_or_eq_of_le hxz with hlt | heq
        · exact hlt
        · exfalso
          rcases List.mem_cons.mp hzmem with rfl | hz2
          · exact hxy heq
          · have hyz : y ≤ z := List.rel_of_pairwise_cons ht hz2
            exact hxy (le_antisymm hle (heq ▸ hyz))

/-- C8 counterexample: a stored row with the empty-string `service` IS
returned by `get_services` — the query has no non-empty filter. -/
theorem get_services_returns_empty_service :
    get_services [emptySvcRow] = [""] ∧ "" ∈ get_services [emptySvcRow] :=
  ⟨rfl, by decide⟩

/-- C8 amended: `get_services` returns each stored `service` value exactly
once (including the empty string when an empty-service row is stored — the
store does not enforce the data-model invariant), in strictly ascending
lexical order; the empty string is absent exactly when no stored row has
an empty `service`. -/
theorem get_services_amended (db : List Row) :
    (get_services db).Pairwise (· < ·) ∧
    (∀ s, s ∈ get_services db ↔ ∃ r ∈ db, r.service = s) ∧
    ((∀ r ∈ db, r.service ≠ "") → "" ∉ get_services db) := by
  have hmem : ∀ s, s ∈ get_services db ↔ ∃ r ∈ db, r.service = s := by
    intro s
    unfold get_services
    rw [mem_dedupAdj, mem_sortStrs, List.mem_map]
  refine ⟨sortedLT_dedupAdj _ (sorted_sortStrs _), hmem, ?_⟩
  · intro hne hmem2
    obtain ⟨r, hr, hrs⟩ := (hmem "").mp hmem2
    exact hne r hr hrs

theorem get_services_amended_witness : "" ∉ get_services [ctxRow1] :=
  (get_services_amended [ctxRow1]).2.2 (by decide)

theorem insertBy_append_of_all (le : Row → Row → Bool) (x : Row) (l : List Row)
    (h : ∀ y ∈ l, le x y = false) : insertBy le x l = l ++ [x] := by
  induction l with
  | nil => rfl
  | cons y t ih =>
    unfold insertBy
    rw [if_neg (by simp [h y (List.mem_cons_self y t)]),
      ih (fun z hz => h z (List.mem_cons_of_mem y hz))]
    rfl

theorem insertBy_cons_of_le (le : Row → Row → Bool) (x y : Row) (t : List Row)
    (h : le x y = true) : insertBy le x (y :: t) = x :: y :: t := by
  unfold insertBy
  rw [if_pos h]

theorem sortBy_idDesc_of_sorted (l : List Row) (h : l.Pairwise (fun a b => a.id < b.id)) :
    sortBy idDesc l = l.reverse := by
  induction l with
  | nil => rfl
  | cons x t ih =>
    show insertBy idDesc x (sortBy idDesc t) = (x :: t).reverse
    rw [ih h.of_cons, List.reverse_cons]
    apply insertBy_append_of_all
    intro y hy
    have hxy : x.id < y.id := List.rel_of_pairwise_cons h (List.mem_reverse.mp hy)
    simp only [idDesc, decide_eq_false_iff_not]
    omega

theorem sortBy_idAsc_of_sorted (l : List Row) (h : l.Pairwise (fun a b => a.id < b.id)) :
    sortBy idAsc l = l := by
  induction l with
  | nil => rfl
  | cons x t ih =>
    show insertBy idAsc x (sortBy idAsc t) = x :: t
    rw [ih h.of_cons]
    cases t with
    | nil => rfl
    | cons y t2 =>
      apply insertBy_cons_of_le
      have hxy : x.id < y.id := List.rel_of_pairwise_cons h (by simp)
      simp only [idAsc, decide_eq_true_eq]
      omega

theorem filter_id_eq_target (db : List Row) (log_id : Nat)
    (hdb : db.Pairwise (fun a b => a.id < b.id)) (tgt : Row) (htm : tgt ∈ db)
    (hid : tgt.id = log_id) : db.filter (fun r => r.id == log_id) = [tgt] := by
  induction db with
  | nil => cases htm
  | cons x t ih =>
    rcases List.mem_cons.mp htm with rfl | hmem
    · rw [List.filter_cons, if_pos (by simp [hid])]
      have hnil : t.filter (fun r => r.id == log_id) = [] := by
        rw [List.filter_eq_nil_iff]
        intro a ha
        have hlt : tgt.id < a.id := List.rel_of_pairwise_cons hdb ha
        simp only [beq_iff_eq]
        omega
      rw [hnil]
    · have hx : ¬(x.id == log_id) = true := by
        have hlt : x.id < tgt.id := List.rel_of_pairwise_cons hdb hmem
        simp only [beq_iff_eq]
        omega
      rw [List.filter_cons, if_neg hx]
      exact ih hdb.of_cons hmem

theorem takeLast_sub (n : Nat) (l : List Row) : List.Sublist (takeLast n l) l := by
  unfold takeLast
  have h1 : List.Sublist (l.reverse.take n) l.reverse := List.take_sublist n l.reverse
  have h2 := h1.reverse
  rwa [List.reverse_reverse] at h2

theorem takeLast_length_le (n : Nat) (l : List Row) : (takeLast n l).length ≤ n := by
  unfold takeLast
  simp [List.length_take]

/-- C4: with strictly increasing ids (the AUTOINCREMENT primary key) and
`1 ≤ lines ≤ 200`: if no row has the target id the context is empty;
otherwise it is the nearest `⌊lines/2⌋` same-service rows below the target
(ascending), the target, and the first `⌊lines/2⌋` same-service rows above
it — hence at most `lines + 1` rows, all of the target service, the
target exactly once, in ascending id order. -/
theorem get_log_context_spec (db : List Row) (log_id : Nat) (lines : Nat)
    (hdb : db.Pairwise (fun a b => a.id < b.id)) (_hlin : 1 ≤ lines ∧ lines ≤ 200) :
    ((∀ r ∈ db, r.id ≠ log_id) → get_log_context db log_id lines = []) ∧
    (∀ tgt, tgt ∈ db → tgt.id = log_id →
      get_log_context db log_id lines =
        takeLast (lines / 2)
          (db.filter (fun r => r.service == tgt.service && r.id < log_id)) ++
        [tgt] ++
        (db.filter (fun r => r.service == tgt.service && log_id < r.id)).take (lines / 2) ∧
      (get_log_context db log_id lines).length ≤ lines + 1 ∧
      (∀ r ∈ get_log_context db log_id lines, r.service = tgt.service) ∧
      (get_log_context db log_id lines).countP (fun r => r.id == log_id) = 1 ∧
      (get_log_context db log_id lines).Pairwise (fun a b => a.id < b.id)) := by
  constructor
  · intro hno
    have hcur : db.filter (fun r => r.id == log_id) = [] := by
      rw [List.filter_eq_nil_iff]
      intro a ha
      simpa using hno a ha
    unfold get_log_context
    rw [hcur]
    rfl
  · intro tgt htm hid
    have hcur : db.filter (fun r => r.id == log_id) = [tgt] :=
      filter_id_eq_target db log_id hdb tgt htm hid
    have hb_sorted :
        (db.filter (fun r => r.service == tgt.service &&
          decide (r.id < log_id))).Pairwise (fun a b => a.id < b.id) :=
      hdb.sublist (List.filter_sublist db)
    have ha_sorted :
        (db.filter (fun r => r.service == tgt.service &&
          decide (log_id < r.id))).Pairwise (fun a b => a.id < b.id) :=
      hdb.sublist (List.filter_sublist db)
    have heq : get_log_context db log_id lines =
        takeLast (lines / 2)
          (db.filter (fun r => r.service == tgt.service && decide (r.id < log_id))) ++
        [tgt] ++
        (db.filter (fun r => r.service == tgt.service && decide (log_id < r.id))).take
          (lines / 2) := by
      unfold get_log_context
      rw [hcur]
      simp only [List.head?]
      rw [sortBy_idDesc_of_sorted _ hb_sorted, sortBy_idAsc_of_sorted _ ha_sorted]
      rfl
    have hmem_b : ∀ r ∈ takeLast (lines / 2)
        (db.filter (fun r => r.service == tgt.service && decide (r.id < log_id))),
        r.service = tgt.service ∧ r.id < log_id := by
      intro r hr
      have hrf := (takeLast_sub _ _).subset hr
      have := (List.mem_filter.mp hrf).2
      simp only [Bool.and_eq_true, beq_iff_eq, decide_eq_true_eq] at this
      exact this
    have hmem_a : ∀ r ∈ (db.filter (fun r => r.service == tgt.service &&
        decide (log_id < r.id))).take (lines / 2),
        r.service = tgt.service ∧ log_id < r.id := by
      intro r hr
      have hrf := (List.take_sublist _ _).subset hr
      have := (List.mem_filter.mp hrf).2
      simp only [Bool.and_eq_true, beq_iff_eq, decide_eq_true_eq] at this
      exact this
    refine ⟨heq, ?_, ?_, ?_, ?_⟩
    · rw [heq]
      have h1 := takeLast_length_le (lines / 2)
        (db.filter (fun r => r.service == tgt.service && decide (r.id < log_id)))
      have h2 : ((db.filter (fun r => r.service == tgt.service &&
          decide (log_id < r.id))).take (lines / 2)).length ≤ lines / 2 := by
        simp [List.length_take]
      simp only [List.length_append, List.length_singleton]
      omega
    · intro r hr
      rw [heq] at hr
      rcases List.mem_append.mp hr with hr1 | hr2
      · rcases List.mem_append.mp hr1 with hrb | hrt
        · exact (hmem_b r hrb).1
        · rw [List.mem_singleton.mp hrt]
      · exact (hmem_a r hr2).1
    · rw [heq, List.countP_append, List.countP_append]
      have hA : (takeLast (lines / 2) (db.filter (fun r => r.service == tgt.service &&
          decide (r.id < log_id)))).countP (fun r => r.id == log_id) = 0 := by
        rw [List.countP_eq_zero]
        intro a ha
        have := (hmem_b a ha).2
        simp only [beq_iff_eq]
        omega
      have hB : ((db.filter (fun r => r.service == tgt.service &&
          decide (log_id < r.id))).take (lines / 2)).countP
          (fun r => r.id == log_id) = 0 := by
        rw [List.countP_eq_zero]
        intro a ha
        have := (hmem_a a ha).2
        simp only [beq_iff_eq]
        omega
      have hT : ([tgt] : List Row).countP (fun r => r.id == log_id) = 1 := by
        simp [List.countP_cons, hid]
      rw [hA, hB, hT]
    · rw [heq]
      rw [List.pairwise_append]
      refine ⟨?_, ?_, ?_⟩
      · rw [List.pairwise_append]
        refine ⟨hb_sorted.sublist (takeLast_sub _ _), List.pairwise_singleton _ _, ?_⟩
        intro a ha b hb
        rw [List.mem_singleton.mp hb]
        have := (hmem_b a ha).2
        omega
      · exact ha_sorted.sublist (List.take_sublist _ _)
      · intro a ha b hb
        have hbgt := (hmem_a b hb).2
        rcases List.mem_append.mp ha with hab | hat
        · have := (hmem_b a hab).2
          omega
        · rw [List.mem_singleton.mp hat]
          omega

theorem get_log_context_spec_witness :
    get_log_context [ctxRow1, ctxRow2, ctxRow3] 2 2 = [ctxRow1, ctxRow2, ctxRow3] :=
  (((get_log_context_spec [ctxRow1, ctxRow2, ctxRow3] 2 2 (by decide)
    ⟨by decide, by decide⟩).2 ctxRow2 (by decide) rfl).1).trans (by decide)

theorem subAllGo_of_no_match (fuel : Nat) (r : RE) (f : List Char → List Char)
    (s : List Char) (h : findFirst r s = none) : subAllGo fuel r f s = s := by
  cases fuel with
  | zero => rfl
  | succ n =>
    unfold subAllGo
    rw [h]

theorem subAll_of_no_match (r : RE) (f : List Char → List Char) (s : List Char)
    (h : findFirst r s = none) : subAll r f s = s :=
  subAllGo_of_no_match _ r f s h

theorem applyPattern_of_no_match (s : List Char) (p : Pattern)
    (h : containsMatch p s = false) : applyPattern s p = s := by
  have h2 : findFirst p.re s = none := by
    cases hf : findFirst p.re s with
    | none => rfl
    | some v =>
      unfold containsMatch at h
      rw [hf] at h
      simp at h
  unfold applyPattern
  split <;> exact subAll_of_no_match _ _ _ h2

theorem foldl_applyPattern_of_no_match (ps : List Pattern) :
    ∀ s, allNoMatch ps s = true → ps.foldl applyPattern s = s := by
  induction ps with
  | nil => intro s _; rfl
  | cons p ps ih =>
    intro s h
    simp only [allNoMatch, List.all_cons, Bool.and_eq_true, Bool.not_eq_true'] at h
    rw [List.foldl_cons, applyPattern_of_no_match s p h.1]
    exact ih s (by simp only [allNoMatch]; exact h.2)

/-- C1 counterexample: the record whose message (and raw) is
`pwd=token="aaaaaaaaaaaaaaaaaaaa` does not opt out (its raw is not JSON),
and scrubbing yields the message `pwd=[REDACTED]` — which still matches
the active built-in pattern `password_assignment` (the ninth entry of
`SCRUB_PATTERNS`): the `secret_assignment` substitution, applied after
`password_assignment`, re-created a `password_assignment` match. -/
theorem scrub_entry_reintroduces_secret :
    (rawTruthy reintroEntry.raw && should_skip_scrubbing (reintroEntry.raw.getD "")) = false ∧
    (scrub_entry [] reintroEntry).message = "pwd=[REDACTED]" ∧
    scrubPatterns[8]? = some password_assignment ∧
    containsMatch password_assignment (scrub_entry [] reintroEntry).message.data = true :=
  ⟨rfl, rfl, rfl, rfl⟩

/-- C1 amended: if the record's raw declares `logging_strategy` in
`{redacted, partial}`, `scrub_entry` returns the record unchanged; and a
text in which no active pattern matches is returned unchanged by `scrub`.
Beyond that the output is the in-order replace-all of every active
pattern with `[REDACTED]`, and — as the counterexample shows — a later
substitution can re-create a match of an earlier pattern, so the scrubbed
record is not always free of active-pattern matches. -/
theorem scrub_amended_spec (extra : List Pattern) (entry : Entry) (text : String)
    (raw : Option String)
    (hskip : (rawTruthy entry.raw && should_skip_scrubbing (entry.raw.getD "")) = true)
    (hnm : allNoMatch (activePatterns extra) text.data = true) :
    scrub_entry extra entry = entry ∧ scrub extra text raw = text := by
  constructor
  · unfold scrub_entry
    simp [hskip]
  · unfold scrub
    split
    · rfl
    · rw [foldl_applyPattern_of_no_match _ _ hnm]

theorem scrub_amended_spec_witness :
    scrub_entry [] optOutEntry = optOutEntry ∧ scrub [] "hello" none = "hello" :=
  scrub_amended_spec [] optOutEntry "hello" none rfl rfl

end Logstream
